import Mathlib

/-!
Verification development for `scripts/clean_notebooks.py`.

The script enumerates files matching the glob pattern `notebooks/*.ipynb`,
and for each match reads it as a structured notebook document via
`nbformat.read(nbf, as_version=4)`.  The source is truncated right after the
comment stating the first-cell title/date convention; the extraction step is
therefore modelled from the spec where a claim needs it.

We embed the filesystem as a finite list of (path, content) entries, the
glob step as a filter with Python `glob.glob` semantics for the fixed pattern
`notebooks/*.ipynb` (`*` matches no `/` and no leading dot), and the run of
the script as a sequential loop over the matched paths that emits a read
event per file and stops with the parser's error at the first file that is
not a valid notebook (an uncaught Python exception aborts the loop).
-/

/-- A notebook cell: a type tag and raw text content. -/
structure Cell where
  cell_type : String
  source : String
deriving DecidableEq, Repr

/-- A notebook document: a format version and an ordered sequence of cells. -/
structure Notebook where
  nbformat_major : Nat
  cells : List Cell
deriving DecidableEq, Repr

/-- The on-disk content of a file: either a serialized notebook (any format
version) or bytes that do not parse as a notebook. -/
inductive FileContent where
  | notebook (nb : Notebook) : FileContent
  | invalid (raw : String) : FileContent
deriving DecidableEq, Repr

/-- One filesystem entry: a path and its content. -/
structure FsEntry where
  path : String
  content : FileContent
deriving DecidableEq, Repr

/-- A filesystem state: the finite list of files, in directory order
(the order `glob.glob` enumerates them). -/
abbrev Fs := List FsEntry

/-- Strip an expected list of characters from the front; `none` when the
input does not start with it. -/
def stripFront : List Char → List Char → Option (List Char)
  | [], cs => some cs
  | _ :: _, [] => none
  | p :: ps, c :: cs => if c = p then stripFront ps cs else none

/-- Strip an expected suffix from the back of a character list. -/
def stripBack (suf cs : List Char) : Option (List Char) :=
  (stripFront suf.reverse cs.reverse).map List.reverse

/-- The part of a path matched by `*` in `notebooks/*.ipynb`, when the path
has that prefix and suffix. -/
def globStem (p : String) : Option (List Char) :=
  match stripFront "notebooks/".data p.data with
  | none => none
  | some rest => stripBack ".ipynb".data rest

/-- Python `glob.glob('notebooks/*.ipynb')` semantics for a single path:
the path is `notebooks/` ++ stem ++ `.ipynb`, where the stem contains no
path separator (`*` never matches `/`) and the matched file name does not
begin with a dot (`glob` skips hidden files for patterns without a leading
dot, so the stem is nonempty and does not start with `.`). -/
def matchesGlob (p : String) : Bool :=
  match globStem p with
  | none => false
  | some [] => false
  | some (c :: rest) => decide (c ≠ '.') && !(c :: rest).contains '/'

/-- `nb_files = glob.glob('notebooks/*.ipynb')`: the matched paths, in
filesystem order. -/
def nb_files (fs : Fs) : List String :=
  (fs.map FsEntry.path).filter matchesGlob

/-- Look up the content stored at a path. -/
def lookupFile (fs : Fs) (p : String) : Option FileContent :=
  (fs.find? (fun e => e.path = p)).map FsEntry.content

/-- Conversion of a parsed document to the requested format version, as the
`as_version` argument of `nbformat.read` performs. -/
def convertToVersion (v : Nat) (nb : Notebook) : Notebook :=
  ⟨v, nb.cells⟩

/-- `nbformat.read(nbf, as_version=v)` applied to file content already in
memory: a valid notebook parses and is converted to format version `v`; any
other content raises a parse error. -/
def nbformat_read (v : Nat) (c : FileContent) : Except String Notebook :=
  match c with
  | FileContent.notebook nb => Except.ok (convertToVersion v nb)
  | FileContent.invalid _ => Except.error "nbformat read error: not a valid notebook"

/-- `true` iff opening and parsing the file at `p` succeeds: the path exists
and its content is a valid notebook. -/
def readsOk (fs : Fs) (p : String) : Bool :=
  match lookupFile fs p with
  | none => false
  | some c =>
    match nbformat_read 4 c with
    | Except.ok _ => true
    | Except.error _ => false

/-- An observable filesystem effect of the script: a read of a path with a
format-version hint, or a write of new content to a path. -/
inductive Event where
  | read (path : String) (as_version : Nat) : Event
  | write (path : String) (c : FileContent) : Event
deriving DecidableEq, Repr

/-- `true` iff the event is a write. -/
def Event.isWrite : Event → Bool
  | Event.read _ _ => false
  | Event.write _ _ => true

/-- Apply one event to a filesystem state: reads change nothing, a write
replaces (or appends) the content at its path. -/
def applyEvent (fs : Fs) : Event → Fs
  | Event.read _ _ => fs
  | Event.write p c =>
    if (fs.map FsEntry.path).contains p then
      fs.map (fun e => if e.path = p then ⟨e.path, c⟩ else e)
    else fs ++ [⟨p, c⟩]

/-- Apply a trace of events in order. -/
def applyEvents (fs : Fs) : List Event → Fs
  | [] => fs
  | e :: es => applyEvents (applyEvent fs e) es

/-- The `for nbf in nb_files:` loop of the script over a list of paths:
each iteration reads the file (one read event with hint `as_version=4`) and
parses it; an unreadable or invalid file raises, aborting the loop with that
error; otherwise the parsed document `nb` is bound and (in the visible,
truncated source) discarded, and the loop continues. -/
def runLoop (fs : Fs) : List String → List Event × Option String
  | [] => ([], none)
  | p :: rest =>
    match lookupFile fs p with
    | none => ([Event.read p 4], some "FileNotFoundError")
    | some c =>
      match nbformat_read 4 c with
      | Except.error e => ([Event.read p 4], some e)
      | Except.ok _nb =>
        let r := runLoop fs rest
        (Event.read p 4 :: r.1, r.2)

/-- One run of `scripts/clean_notebooks.py` on a filesystem state: glob,
then the sequential read loop.  Returns the event trace and the uncaught
error, if any. -/
def runScript (fs : Fs) : List Event × Option String :=
  runLoop fs (nb_files fs)

/-- Split a text into the list of its lines at `\n` separators, with
Python `text.split('\n')` semantics (splitting `"a"` gives `["a"]`,
splitting `"a\nb"` gives `["a", "b"]`). -/
def splitLinesAux : List Char → List Char → List (List Char)
  | [], acc => [acc.reverse]
  | c :: cs, acc =>
    if c = '\n' then acc.reverse :: splitLinesAux cs []
    else splitLinesAux cs (c :: acc)

/-- The lines of a string, split at newline characters. -/
def splitLines (s : String) : List String :=
  (splitLinesAux s.data []).map (fun l => String.mk l)

/-- Modelled from the spec: the extraction step is absent from the truncated
source (only the comment `assume the first cell as the post title on one
line and the post date on the next line` remains).  Per the spec, the title
is the first line of the first cell's text and the date is the second
line. -/
def extractTitleDate (nb : Notebook) : Option (String × String) :=
  match nb.cells with
  | [] => none
  | cell :: _ =>
    match splitLines cell.source with
    | t :: d :: _ => some (t, d)
    | _ => none

/-! ### Helper lemmas -/

theorem runLoop_all_ok (fs : Fs) (l : List String)
    (h : ∀ p ∈ l, readsOk fs p = true) :
    runLoop fs l = (l.map (fun p => Event.read p 4), none) := by
  induction l with
  | nil => rfl
  | cons p rest ih =>
    have hp := h p (by simp)
    have hrest : ∀ q ∈ rest, readsOk fs q = true := fun q hq => h q (by simp [hq])
    cases hl : lookupFile fs p with
    | none => simp [readsOk, hl] at hp
    | some c =>
      cases hr : nbformat_read 4 c with
      | error e => simp [readsOk, hl, hr] at hp
      | ok nb => simp [runLoop, hl, hr, ih hrest]

theorem runLoop_mem_read (fs : Fs) (l : List String) (e : Event)
    (he : e ∈ (runLoop fs l).1) : ∃ p, p ∈ l ∧ e = Event.read p 4 := by
  induction l with
  | nil => simp [runLoop] at he
  | cons p rest ih =>
    cases hl : lookupFile fs p with
    | none =>
      simp [runLoop, hl] at he
      exact ⟨p, by simp, he⟩
    | some c =>
      cases hr : nbformat_read 4 c with
      | error err =>
        simp [runLoop, hl, hr] at he
        exact ⟨p, by simp, he⟩
      | ok nb =>
        simp [runLoop, hl, hr] at he
        cases he with
        | inl h => exact ⟨p, by simp, h⟩
        | inr h =>
          obtain ⟨q, hq, hqe⟩ := ih h
          exact ⟨q, by simp [hq], hqe⟩

theorem count_read_map (l : List String) (p : String) :
    (l.map (fun q => Event.read q 4)).count (Event.read p 4) = l.count p := by
  induction l with
  | nil => rfl
  | cons q rest ih =>
    by_cases hq : q = p <;>
      simp [List.count_cons, ih, hq]

theorem runLoop_congr (fs₁ fs₂ : Fs)
    (hlook : ∀ p, lookupFile fs₁ p = lookupFile fs₂ p) (l : List String) :
    runLoop fs₁ l = runLoop fs₂ l := by
  induction l with
  | nil => rfl
  | cons p rest ih =>
    simp only [runLoop, hlook p, ih]

theorem runLoop_stops (fs : Fs) (l₁ : List String) (p : String) (l₂ : List String)
    (hok : ∀ q ∈ l₁, readsOk fs q = true) (hfail : readsOk fs p = false) :
    (runLoop fs (l₁ ++ p :: l₂)).1
        = l₁.map (fun q => Event.read q 4) ++ [Event.read p 4] ∧
      (runLoop fs (l₁ ++ p :: l₂)).2.isSome = true := by
  induction l₁ with
  | nil =>
    cases hl : lookupFile fs p with
    | none => simp [runLoop, hl]
    | some c =>
      cases hr : nbformat_read 4 c with
      | error e => simp [runLoop, hl, hr]
      | ok nb => simp [readsOk, hl, hr] at hfail
  | cons q rest ih =>
    have hq := hok q (by simp)
    have hrest : ∀ r ∈ rest, readsOk fs r = true := fun r hr => hok r (by simp [hr])
    obtain ⟨ih1, ih2⟩ := ih hrest
    cases hl : lookupFile fs q with
    | none => simp [readsOk, hl] at hq
    | some c =>
      cases hr : nbformat_read 4 c with
      | error e => simp [readsOk, hl, hr] at hq
      | ok nb =>
        constructor
        · simp [runLoop, hl, hr, ih1]
        · simp [runLoop, hl, hr, ih2]

theorem applyEvents_of_no_write (fs : Fs) (l : List Event)
    (h : ∀ e ∈ l, Event.isWrite e = false) : applyEvents fs l = fs := by
  induction l with
  | nil => rfl
  | cons e es ih =>
    have he := h e (by simp)
    have hes : ∀ x ∈ es, Event.isWrite x = false := fun x hx => h x (by simp [hx])
    cases e with
    | read p v => simpa [applyEvents, applyEvent] using ih hes
    | write p c => simp [Event.isWrite] at he

theorem splitLinesAux_ne_nil (cs : List Char) :
    ∀ acc, splitLinesAux cs acc ≠ [] := by
  induction cs with
  | nil => intro acc; simp [splitLinesAux]
  | cons c cs ih =>
    intro acc
    by_cases hc : c = '\n' <;> simp [splitLinesAux, hc, ih]

theorem two_le_splitLinesAux (cs : List Char) :
    ∀ acc, '\n' ∈ cs → 2 ≤ (splitLinesAux cs acc).length := by
  induction cs with
  | nil => intro acc h; simp at h
  | cons c cs ih =>
    intro acc h
    by_cases hc : c = '\n'
    · have h1 : 0 < (splitLinesAux cs []).length :=
        List.length_pos.mpr (splitLinesAux_ne_nil cs [])
      subst hc
      simp only [splitLinesAux, eq_self_iff_true, if_true, List.length_cons]
      omega
    · have hmem : '\n' ∈ cs := by
        rcases List.mem_cons.mp h with h' | h'
        · exact absurd h'.symm hc
        · exact h'
      simpa [splitLinesAux, hc] using ih (c :: acc) hmem

/-! ### Concrete filesystem states used as witnesses and counterexamples -/

/-- A directory containing `notebooks/post1.ipynb` whose first cell text is
`"My Title\n2021-01-01"`. -/
def fsPost1 : Fs :=
  [⟨"notebooks/post1.ipynb",
    FileContent.notebook ⟨4, [⟨"markdown", "My Title\n2021-01-01"⟩]⟩⟩]

/-- A directory whose first matched notebook is invalid and whose second is
a valid notebook. -/
def fsBad : Fs :=
  [⟨"notebooks/a.ipynb", FileContent.invalid "not a notebook"⟩,
   ⟨"notebooks/b.ipynb",
    FileContent.notebook ⟨4, [⟨"markdown", "T\n2021-01-01"⟩]⟩⟩]

/-- A directory containing one valid notebook whose first cell text is a
single line (the title/date convention is broken). -/
def fsOneLine : Fs :=
  [⟨"notebooks/short.ipynb",
    FileContent.notebook ⟨4, [⟨"markdown", "only one line"⟩]⟩⟩]

/-- A directory with no file matching `notebooks/*.ipynb`. -/
def fsNoMatch : Fs :=
  [⟨"README.md", FileContent.invalid "readme text"⟩,
   ⟨"notebooks/.hidden.ipynb",
    FileContent.notebook ⟨4, [⟨"markdown", "H\n2021-01-01"⟩]⟩⟩]

/-! ### Claims -/

/-- C1: for the input directory containing `notebooks/post1.ipynb` whose
first cell text is `"My Title\n2021-01-01"`, the run globs exactly that
file, reads it without error, and the (spec-modelled) extraction applied to
the document the script's parse operation yields gives title `"My Title"`
and date `"2021-01-01"`. -/
theorem c1_extracts_title_and_date :
    nb_files fsPost1 = ["notebooks/post1.ipynb"] ∧
    runScript fsPost1 = ([Event.read "notebooks/post1.ipynb" 4], none) ∧
    (lookupFile fsPost1 "notebooks/post1.ipynb").map
        (fun c => (nbformat_read 4 c).toOption.bind extractTitleDate)
      = some (some ("My Title", "2021-01-01")) :=
  ⟨rfl, rfl, rfl⟩

/-- C4: if zero files match the glob pattern, the run performs zero parse
operations (the event trace is empty, so the parser is never invoked) and
terminates without error. -/
theorem c4_empty_glob_no_parse (fs : Fs) (h : nb_files fs = []) :
    runScript fs = ([], none) := by
  simp [runScript, h, runLoop]

/-- Witness for C4 at a directory with no matching file. -/
theorem c4_empty_glob_no_parse_witness :
    nb_files fsNoMatch = [] ∧ runScript fsNoMatch = ([], none) :=
  ⟨by decide, c4_empty_glob_no_parse fsNoMatch (by decide)⟩

/-- C3: the script does not validate or enforce the first-cell convention:
whenever every matched file is a valid notebook — with no condition at all
on the cells' text, so in particular when the first cell's text has fewer
than two lines — the run raises no error and no file is rejected (every
matched file is read, in glob order). -/
theorem c3_no_convention_validation (fs : Fs)
    (hok : ∀ p ∈ nb_files fs, readsOk fs p = true) :
    (runScript fs).2 = none ∧
    (runScript fs).1 = (nb_files fs).map (fun p => Event.read p 4) := by
  have h := runLoop_all_ok fs (nb_files fs) hok
  constructor
  · simp [runScript, h]
  · simp [runScript, h]

/-- Witness for C3 at a notebook whose first cell text is one line: the run
still succeeds and the file is still read. -/
theorem c3_no_convention_validation_witness :
    (∀ p ∈ nb_files fsOneLine, readsOk fsOneLine p = true) ∧
    (splitLines "only one line").length < 2 ∧
    ((runScript fsOneLine).2 = none ∧
      (runScript fsOneLine).1 = (nb_files fsOneLine).map (fun p => Event.read p 4)) :=
  ⟨by decide, by decide, c3_no_convention_validation fsOneLine (by decide)⟩

/-- C2 counterexample: in `fsBad` the path `notebooks/b.ipynb` matches the
glob pattern, yet the run reads it zero times, because the run aborts at the
earlier invalid file `notebooks/a.ipynb`; so not every matched file is read
exactly once on every filesystem state. -/
theorem c2_counterexample :
    "notebooks/b.ipynb" ∈ nb_files fsBad ∧
    (runScript fsBad).1.count (Event.read "notebooks/b.ipynb" 4) = 0 := by
  constructor <;> decide

/-- C2 (amended): for every filesystem state with distinct paths in which
every matched file parses as a valid notebook, each path matching the glob
pattern is read exactly once per run and no other path is ever read twice
(a non-matching path is read zero times). -/
theorem c2_each_matched_file_read_once (fs : Fs) (p : String)
    (hnd : (fs.map FsEntry.path).Nodup)
    (hok : ∀ q ∈ nb_files fs, readsOk fs q = true) :
    (runScript fs).1.count (Event.read p 4)
      = if p ∈ nb_files fs then 1 else 0 := by
  have htrace : (runScript fs).1 = (nb_files fs).map (fun q => Event.read q 4) := by
    simp [runScript, runLoop_all_ok fs (nb_files fs) hok]
  rw [htrace, count_read_map]
  have hnods : (nb_files fs).Nodup := hnd.filter matchesGlob
  by_cases hp : p ∈ nb_files fs
  · simp [hp, List.count_eq_one_of_mem hnods hp]
  · simp [hp, List.count_eq_zero_of_not_mem hp]

/-- Witness for the amended C2 at `fsPost1`. -/
theorem c2_each_matched_file_read_once_witness :
    ((fsPost1.map FsEntry.path).Nodup ∧
      ∀ q ∈ nb_files fsPost1, readsOk fsPost1 q = true) ∧
    (runScript fsPost1).1.count (Event.read "notebooks/post1.ipynb" 4)
      = if "notebooks/post1.ipynb" ∈ nb_files fsPost1 then 1 else 0 :=
  ⟨⟨by decide, by decide⟩,
    c2_each_matched_file_read_once fsPost1 "notebooks/post1.ipynb"
      (by decide) (by decide)⟩

/-- A valid version-4 notebook whose only cell is a single line of text. -/
def shortNb : Notebook := ⟨4, [⟨"markdown", "only one line"⟩]⟩

/-- C5 counterexample: `shortNb` is a well-formed notebook — the script's
parse operation accepts it — yet its first cell's text splits into one line,
not at least two. -/
theorem c5_counterexample :
    nbformat_read 4 (FileContent.notebook shortNb) = Except.ok shortNb ∧
    shortNb.cells = [⟨"markdown", "only one line"⟩] ∧
    ¬ 2 ≤ (splitLines "only one line").length :=
  ⟨rfl, rfl, by decide⟩

/-- C5 (amended): for every well-formed notebook file whose first cell's
text contains a newline character (the title/date convention), reading it
with the script's parse operation yields a document whose first cell's text
splits into at least two lines; well-formedness alone does not guarantee
this. -/
theorem c5_two_lines_under_convention (c : FileContent) (nb : Notebook)
    (cell : Cell) (rest : List Cell)
    (_hread : nbformat_read 4 c = Except.ok nb)
    (_hcells : nb.cells = cell :: rest)
    (hnl : '\n' ∈ cell.source.data) :
    2 ≤ (splitLines cell.source).length := by
  have h := two_le_splitLinesAux cell.source.data [] hnl
  simpa [splitLines] using h

/-- Witness for the amended C5 at the two-line first cell of `fsPost1`. -/
theorem c5_two_lines_under_convention_witness :
    (nbformat_read 4 (FileContent.notebook ⟨4, [⟨"markdown", "My Title\n2021-01-01"⟩]⟩)
        = Except.ok ⟨4, [⟨"markdown", "My Title\n2021-01-01"⟩]⟩ ∧
      '\n' ∈ ("My Title\n2021-01-01" : String).data) ∧
    2 ≤ (splitLines "My Title\n2021-01-01").length :=
  ⟨⟨rfl, by decide⟩,
    c5_two_lines_under_convention
      (FileContent.notebook ⟨4, [⟨"markdown", "My Title\n2021-01-01"⟩]⟩)
      ⟨4, [⟨"markdown", "My Title\n2021-01-01"⟩]⟩
      ⟨"markdown", "My Title\n2021-01-01"⟩ [] rfl rfl (by decide)⟩

/-- `true` iff the event is a read carrying the version-4 hint. -/
def isRead4 : Event → Bool
  | Event.read _ v => v == 4
  | Event.write _ _ => false

/-- C6: every event the run emits is a read carrying the `as_version=4`
hint, and any document the parse operation yields under that hint has
format version 4, whatever the on-disk format version was. -/
theorem c6_version_four_hint (fs : Fs) :
    (runScript fs).1.all isRead4 = true ∧
    ∀ c nb, nbformat_read 4 c = Except.ok nb → nb.nbformat_major = 4 := by
  constructor
  · rw [List.all_eq_true]
    intro e he
    obtain ⟨p, -, rfl⟩ := runLoop_mem_read fs (nb_files fs) e he
    rfl
  · intro c nb h
    cases c with
    | notebook nb' =>
      have hc : convertToVersion 4 nb' = nb := by
        simpa [nbformat_read] using h
      subst hc
      rfl
    | invalid raw => simp [nbformat_read] at h

/-- Witness for C6: parsing an on-disk version-3 notebook under the hint
yields a version-4 document. -/
theorem c6_version_four_hint_witness :
    nbformat_read 4 (FileContent.notebook ⟨3, [⟨"markdown", "T\nD"⟩]⟩)
        = Except.ok ⟨4, [⟨"markdown", "T\nD"⟩]⟩ ∧
    (⟨4, [⟨"markdown", "T\nD"⟩]⟩ : Notebook).nbformat_major = 4 :=
  ⟨rfl,
    (c6_version_four_hint fsPost1).2
      (FileContent.notebook ⟨3, [⟨"markdown", "T\nD"⟩]⟩)
      ⟨4, [⟨"markdown", "T\nD"⟩]⟩ rfl⟩

/-- C7: the run's only filesystem input is the set of matched files: every
read event in any run's trace targets a path in the glob result, hence a
path matching `notebooks/*.ipynb` (so no subdirectory of `notebooks/`, no
other extension, no unrelated file is ever read). -/
theorem c7_reads_only_matched_paths (fs : Fs) (p : String) (v : Nat)
    (hin : Event.read p v ∈ (runScript fs).1) :
    p ∈ nb_files fs ∧ matchesGlob p = true := by
  obtain ⟨q, hq, heq⟩ := runLoop_mem_read fs (nb_files fs) (Event.read p v) hin
  rw [Event.read.injEq] at heq
  obtain ⟨rfl, -⟩ := heq
  refine ⟨hq, ?_⟩
  have hq' := hq
  unfold nb_files at hq'
  exact List.of_mem_filter hq'

/-- Witness for C7 at `fsPost1`. -/
theorem c7_reads_only_matched_paths_witness :
    Event.read "notebooks/post1.ipynb" 4 ∈ (runScript fsPost1).1 ∧
    ("notebooks/post1.ipynb" ∈ nb_files fsPost1 ∧
      matchesGlob "notebooks/post1.ipynb" = true) :=
  ⟨by decide,
    c7_reads_only_matched_paths fsPost1 "notebooks/post1.ipynb" 4 (by decide)⟩

/-- C8: processing is sequential and deterministic: the run is a function
of the filesystem state alone, so two runs over filesystem states with the
same directory listing and the same contents perform the same reads in the
same order and produce the same result. -/
theorem c8_deterministic_sequential (fs₁ fs₂ : Fs)
    (hglob : nb_files fs₁ = nb_files fs₂)
    (hlook : ∀ p, lookupFile fs₁ p = lookupFile fs₂ p) :
    runScript fs₁ = runScript fs₂ := by
  rw [runScript, runScript, hglob, runLoop_congr fs₁ fs₂ hlook (nb_files fs₂)]

/-- Witness for C8: two runs over the same state agree. -/
theorem c8_deterministic_sequential_witness :
    runScript fsPost1 = runScript fsPost1 :=
  c8_deterministic_sequential fsPost1 fsPost1 rfl (fun _ => rfl)

/-- C9: the script never mutates any notebook: every event of every run is
a read (the visible source performs no write), and replaying the run's
trace against the filesystem leaves it unchanged. -/
theorem c9_no_mutation (fs : Fs) :
    (runScript fs).1.all (fun e => !(Event.isWrite e)) = true ∧
    applyEvents fs (runScript fs).1 = fs := by
  have hread : ∀ e ∈ (runScript fs).1, Event.isWrite e = false := by
    intro e he
    obtain ⟨p, -, rfl⟩ := runLoop_mem_read fs (nb_files fs) e he
    rfl
  constructor
  · rw [List.all_eq_true]
    intro e he
    simp [hread e he]
  · exact applyEvents_of_no_write fs (runScript fs).1 hread

/-- C10: when the parser fails on a matched file, the run terminates at
that file with the parser's error: the trace is exactly the reads of the
earlier matched files followed by the read of the failing file, the run
ends in an error, and no matched file ordered after the failing one is ever
read; no skip or recovery occurs. -/
theorem c10_abort_at_first_failure (fs : Fs) (l₁ : List String) (p : String)
    (l₂ : List String) (hsplit : nb_files fs = l₁ ++ p :: l₂)
    (hnd : (l₁ ++ p :: l₂).Nodup)
    (hok : ∀ q ∈ l₁, readsOk fs q = true)
    (hfail : readsOk fs p = false) :
    (runScript fs).1 = l₁.map (fun q => Event.read q 4) ++ [Event.read p 4] ∧
    (runScript fs).2.isSome = true ∧
    ∀ q ∈ l₂, Event.read q 4 ∉ (runScript fs).1 := by
  obtain ⟨h1, h2⟩ := runLoop_stops fs l₁ p l₂ hok hfail
  have htrace : (runScript fs).1
      = l₁.map (fun q => Event.read q 4) ++ [Event.read p 4] := by
    rw [runScript, hsplit]; exact h1
  have herr : (runScript fs).2.isSome = true := by
    rw [runScript, hsplit]; exact h2
  refine ⟨htrace, herr, ?_⟩
  intro q hq hmem
  obtain ⟨-, hnd₂, hdisj⟩ := List.nodup_append.mp hnd
  have hpl₂ : p ∉ l₂ := (List.nodup_cons.mp hnd₂).1
  rw [htrace] at hmem
  simp only [List.mem_append, List.mem_map, List.mem_singleton,
    Event.read.injEq] at hmem
  rcases hmem with ⟨r, hr, hrq, -⟩ | ⟨hpq, -⟩
  · exact hdisj hr (by simp [hrq ▸ hq])
  · exact hpl₂ (hpq ▸ hq)

/-- Witness for C10 at `fsBad`: the invalid first match aborts the run and
the valid second match is never read. -/
theorem c10_abort_at_first_failure_witness :
    (nb_files fsBad = [] ++ "notebooks/a.ipynb" :: ["notebooks/b.ipynb"] ∧
      (([] ++ "notebooks/a.ipynb" :: ["notebooks/b.ipynb"]) : List String).Nodup ∧
      readsOk fsBad "notebooks/a.ipynb" = false) ∧
    ((runScript fsBad).1
        = List.map (fun q => Event.read q 4) []
            ++ [Event.read "notebooks/a.ipynb" 4] ∧
      (runScript fsBad).2.isSome = true ∧
      ∀ q ∈ ["notebooks/b.ipynb"], Event.read q 4 ∉ (runScript fsBad).1) :=
  ⟨⟨by decide, by decide, by decide⟩,
    c10_abort_at_first_failure fsBad [] "notebooks/a.ipynb"
      ["notebooks/b.ipynb"] (by decide) (by decide) (by decide) (by decide)⟩
